import Mathlib

/-!
Verification of the metadata-resolution core of the plex-imdb-extension
browser extension: the TTL+LRU cache (`cache.js`), the sliding-window rate
limiter and retrying fetch (`rate-limiter.js`), the OMDb API client
(`api-client.js`), the Plex API client (`plex-api.js`) and the metadata
resolver (`metadata-resolver.js`).

The JavaScript sources are embedded shallowly:

* `Date.now()` is passed in explicitly as a `now : Nat` argument
  (milliseconds); `await`-suspension is modelled by explicit time passing.
* A JS `Map` (insertion-ordered, unique string keys) is an association
  list in iteration order; `Map.prototype.set` on an existing key updates
  the value in place keeping its position, on a fresh key it appends.
* Thrown exceptions are `Except String` results.
* `JSON.stringify(value)` either yields a string (whose length we record)
  or throws (circular structure); a cached value is modelled by just that
  observable, `jsonLen : Option Nat`.
* JS numbers are modelled by exact arithmetic (`Nat`/`ℚ`); the sources
  only ever subtract timestamps and divide small counters, where ideal
  arithmetic agrees with the intended semantics.
-/

/-- The observable part of an arbitrary JSON-ish cached value: the length of
`JSON.stringify(value)` when serialization succeeds, or `none` when it
throws (e.g. a circular reference). -/
structure JSValue where
  jsonLen : Option Nat
deriving DecidableEq, Repr

/-- A cache entry as built by `LRUCache.set`:
`{ value, expiry: Date.now() + this.ttl, timestamp: Date.now() }`. -/
structure CacheEntry where
  value : JSValue
  expiry : Nat
  timestamp : Nat
deriving DecidableEq, Repr

/-- Iteration-ordered JS `Map` with string keys, as an association list. -/
abbrev CacheMap := List (String × CacheEntry)

/-- `Map.prototype.get`. -/
def mapGet : CacheMap → String → Option CacheEntry
  | [], _ => none
  | (k', v) :: rest, k => if k' = k then some v else mapGet rest k

/-- `Map.prototype.set`: update in place when the key is present (keeping its
position in iteration order), append when absent. -/
def mapSet : CacheMap → String → CacheEntry → CacheMap
  | [], k, v => [(k, v)]
  | (k', v') :: rest, k, v =>
    if k' = k then (k, v) :: rest else (k', v') :: mapSet rest k v

/-- `Map.prototype.delete`: remove the entry with the given key (a JS map
holds at most one). -/
def mapDelete : CacheMap → String → CacheMap
  | [], _ => []
  | (k', v') :: rest, k => if k' = k then rest else (k', v') :: mapDelete rest k

/-- State of `class LRUCache` (cache.js). -/
structure LRUCache where
  cache : CacheMap
  maxSize : Nat
  ttl : Nat
  hits : Nat
  misses : Nat
deriving DecidableEq, Repr

/-- `new LRUCache(maxSize, ttlMinutes)`: `this.ttl = ttlMinutes * 60 * 1000`. -/
def LRUCache.init (maxSize ttlMinutes : Nat) : LRUCache :=
  { cache := [], maxSize := maxSize, ttl := ttlMinutes * 60 * 1000,
    hits := 0, misses := 0 }

/-- `LRUCache.get(key)`: miss on absent key; expired entries
(`Date.now() > item.expiry`) are evicted on access and count as misses; a
hit moves the entry to the most-recently-used (last) position via
`delete` + `set`. Returns the value (or `none`) and the updated cache. -/
def LRUCache.get (c : LRUCache) (now : Nat) (k : String) :
    Option JSValue × LRUCache :=
  match mapGet c.cache k with
  | none => (none, { c with misses := c.misses + 1 })
  | some item =>
    if item.expiry < now then
      (none, { c with cache := mapDelete c.cache k, misses := c.misses + 1 })
    else
      (some item.value,
        { c with cache := mapSet (mapDelete c.cache k) k item,
                 hits := c.hits + 1 })

/-- First half of `LRUCache.set`: "Remove oldest entry if at capacity" —
when `this.cache.size >= this.maxSize`, delete
`this.cache.keys().next().value` (the first key in iteration order;
`undefined` on an empty map, in which case the delete is a no-op). -/
def LRUCache.evictIfFull (c : LRUCache) : LRUCache :=
  if c.maxSize ≤ c.cache.length then
    match c.cache with
    | [] => c
    | e0 :: _ => { c with cache := mapDelete c.cache e0.1 }
  else c

/-- `LRUCache.set(key, value)`: evict if at capacity, then store
`{value, expiry: now + ttl, timestamp: now}`. -/
def LRUCache.set (c : LRUCache) (now : Nat) (k : String) (v : JSValue) :
    LRUCache :=
  { c.evictIfFull with
    cache := mapSet c.evictIfFull.cache k ⟨v, now + c.ttl, now⟩ }

/-- `LRUCache.has(key)`: literally `this.get(key) !== null`, so it has the
same state effect as `get` (promotion, expiry eviction, counters). -/
def LRUCache.has (c : LRUCache) (now : Nat) (k : String) :
    Bool × LRUCache :=
  let r := c.get now k
  (r.1.isSome, r.2)

/-- `LRUCache.delete(key)`. -/
def LRUCache.delete (c : LRUCache) (k : String) : LRUCache :=
  { c with cache := mapDelete c.cache k }

/-- `LRUCache.clear()`: drops all entries and resets both counters. -/
def LRUCache.clear (c : LRUCache) : LRUCache :=
  { c with cache := [], hits := 0, misses := 0 }

/-- `LRUCache.keys()`. -/
def LRUCache.keysList (c : LRUCache) : List String :=
  c.cache.map Prod.fst

/-- `Number.prototype.toFixed(2)` on the exact nonnegative rational
`num / den`, as a hundredths count: round half-up
(ES `toFixed` picks the larger integer on ties). -/
def toFixed2Hundredths (num den : Nat) : Nat :=
  (200 * num + den) / (2 * den)

/-- Render a hundredths count as a fixed two-decimal string, e.g.
`5000 ↦ "50.00"`. -/
def hundredthsToString (h : Nat) : String :=
  toString (h / 100) ++ "." ++
    (if h % 100 < 10 then "0" else "") ++ toString (h % 100)

/-- `((hits / total) * 100).toFixed(2)` under exact arithmetic. -/
def hitRateNumString (hits total : Nat) : String :=
  hundredthsToString (toFixed2Hundredths (hits * 100) total)

/-- Result object of `LRUCache.getStats()`. -/
structure CacheStats where
  size : Nat
  maxSize : Nat
  hits : Nat
  misses : Nat
  hitRate : String
deriving DecidableEq, Repr

/-- `LRUCache.getStats()`: `hitRate` is
`total > 0 ? ((hits / total) * 100).toFixed(2) : '0.00'` with `%` appended. -/
def LRUCache.getStats (c : LRUCache) : CacheStats :=
  { size := c.cache.length, maxSize := c.maxSize, hits := c.hits,
    misses := c.misses,
    hitRate :=
      (if 0 < c.hits + c.misses then hitRateNumString c.hits (c.hits + c.misses)
       else "0.00") ++ "%" }

/-- One public cache operation, with the ambient `Date.now()` for the
operations that read the clock. -/
inductive CacheOp where
  | get (now : Nat) (key : String)
  | set (now : Nat) (key : String) (v : JSValue)
  | has (now : Nat) (key : String)
  | del (key : String)
  | clear
deriving DecidableEq, Repr

/-- Apply one operation to the cache state (discarding returned values). -/
def CacheOp.apply (c : LRUCache) : CacheOp → LRUCache
  | .get now k => (c.get now k).2
  | .set now k v => c.set now k v
  | .has now k => (c.has now k).2
  | .del k => c.delete k
  | .clear => c.clear

/-- Run a sequence of cache operations. -/
def runCacheOps (c : LRUCache) : List CacheOp → LRUCache
  | [] => c
  | op :: ops => runCacheOps (op.apply c) ops

/-! ### Association-list lemmas for the JS `Map` model -/

theorem mapDelete_length_le (m : CacheMap) (k : String) :
    (mapDelete m k).length ≤ m.length := by
  induction m with
  | nil => simp [mapDelete]
  | cons e rest ih =>
    simp only [mapDelete]
    split
    · exact Nat.le_succ _
    · simpa using Nat.succ_le_succ ih

theorem mapDelete_length_of_get (m : CacheMap) (k : String) (v : CacheEntry)
    (h : mapGet m k = some v) : (mapDelete m k).length + 1 = m.length := by
  induction m with
  | nil => simp [mapGet] at h
  | cons e rest ih =>
    simp only [mapGet] at h
    simp only [mapDelete]
    split
    · rfl
    · rename_i hne
      rw [if_neg hne] at h
      simpa using ih h

theorem mapSet_length_le (m : CacheMap) (k : String) (v : CacheEntry) :
    (mapSet m k v).length ≤ m.length + 1 := by
  induction m with
  | nil => simp [mapSet]
  | cons e rest ih =>
    simp only [mapSet]
    split
    · simp
    · simpa using Nat.succ_le_succ ih

theorem mapSet_length_of_get (m : CacheMap) (k : String) (v w : CacheEntry)
    (h : mapGet m k = some w) : (mapSet m k v).length = m.length := by
  induction m with
  | nil => simp [mapGet] at h
  | cons e rest ih =>
    simp only [mapGet] at h
    simp only [mapSet]
    split
    · rfl
    · rename_i hne
      rw [if_neg hne] at h
      simpa using ih h

theorem mapGet_eq_none_of_not_mem (m : CacheMap) (k : String)
    (h : k ∉ m.map Prod.fst) : mapGet m k = none := by
  induction m with
  | nil => rfl
  | cons e rest ih =>
    simp only [List.map_cons, List.mem_cons] at h
    push_neg at h
    simp only [mapGet]
    rw [if_neg (fun heq => h.1 heq.symm)]
    exact ih h.2

theorem mapGet_mapDelete_self (m : CacheMap) (k : String)
    (hnd : (m.map Prod.fst).Nodup) : mapGet (mapDelete m k) k = none := by
  induction m with
  | nil => rfl
  | cons e rest ih =>
    simp only [List.map_cons, List.nodup_cons] at hnd
    simp only [mapDelete]
    split
    · rename_i heq
      exact mapGet_eq_none_of_not_mem rest k (heq ▸ hnd.1)
    · rename_i hne
      simp only [mapGet, if_neg hne]
      exact ih hnd.2

theorem mapSet_of_get_none (m : CacheMap) (k : String) (v : CacheEntry)
    (h : mapGet m k = none) : mapSet m k v = m ++ [(k, v)] := by
  induction m with
  | nil => simp [mapSet]
  | cons e rest ih =>
    simp only [mapGet] at h
    split at h
    · exact absurd h (by simp)
    · rename_i hne
      simp only [mapSet, if_neg hne, List.cons_append]
      rw [ih h]

/-! ### C4: size bound and expiry behaviour -/

/-- `LRUCache.get` never changes the configuration or grows the map. -/
theorem get_state_length_le (c : LRUCache) (now : Nat) (k : String) :
    (c.get now k).2.cache.length ≤ c.cache.length := by
  unfold LRUCache.get
  cases hg : mapGet c.cache k with
  | none => simp
  | some item =>
    by_cases hexp : item.expiry < now
    · simpa [hg, hexp] using mapDelete_length_le c.cache k
    · simp only [hg, if_neg hexp]
      calc (mapSet (mapDelete c.cache k) k item).length
        ≤ (mapDelete c.cache k).length + 1 := mapSet_length_le _ _ _
        _ = c.cache.length := mapDelete_length_of_get c.cache k item hg

theorem evictIfFull_maxSize (c : LRUCache) :
    c.evictIfFull.maxSize = c.maxSize := by
  unfold LRUCache.evictIfFull
  split
  · cases c.cache <;> rfl
  · rfl

theorem evictIfFull_ttl (c : LRUCache) : c.evictIfFull.ttl = c.ttl := by
  unfold LRUCache.evictIfFull
  split
  · cases c.cache <;> rfl
  · rfl

theorem evictIfFull_cache_of_full (c : LRUCache) (e0 : String × CacheEntry)
    (rest : CacheMap) (hc : c.cache = e0 :: rest)
    (hfull : c.maxSize ≤ c.cache.length) :
    c.evictIfFull.cache = rest := by
  unfold LRUCache.evictIfFull
  rw [if_pos hfull, hc]
  simp [mapDelete]

theorem evictIfFull_cache_length_lt (c : LRUCache)
    (hmax : 1 ≤ c.maxSize) (hle : c.cache.length ≤ c.maxSize)
    (hfull : c.maxSize ≤ c.cache.length) :
    c.evictIfFull.cache.length + 1 ≤ c.maxSize := by
  cases hc : c.cache with
  | nil =>
    rw [hc] at hfull
    simp only [List.length_nil, Nat.le_zero] at hfull
    omega
  | cons e0 rest =>
    rw [evictIfFull_cache_of_full c e0 rest hc hfull]
    have : (e0 :: rest).length ≤ c.maxSize := hc ▸ hle
    simpa using this

theorem evictIfFull_cache_eq_of_not_full (c : LRUCache)
    (hfull : ¬ c.maxSize ≤ c.cache.length) :
    c.evictIfFull.cache = c.cache := by
  unfold LRUCache.evictIfFull
  rw [if_neg hfull]

theorem set_state_length_le (c : LRUCache) (now : Nat) (k : String)
    (v : JSValue) (hmax : 1 ≤ c.maxSize) (hle : c.cache.length ≤ c.maxSize) :
    (c.set now k v).cache.length ≤ c.maxSize := by
  unfold LRUCache.set
  simp only []
  by_cases hfull : c.maxSize ≤ c.cache.length
  · have h1 : (mapSet c.evictIfFull.cache k ⟨v, now + c.ttl, now⟩).length
        ≤ c.evictIfFull.cache.length + 1 := mapSet_length_le _ _ _
    have h2 := evictIfFull_cache_length_lt c hmax hle hfull
    omega
  · rw [evictIfFull_cache_eq_of_not_full c hfull]
    have h1 : (mapSet c.cache k ⟨v, now + c.ttl, now⟩).length
        ≤ c.cache.length + 1 := mapSet_length_le _ _ _
    omega

theorem apply_maxSize_eq (c : LRUCache) (op : CacheOp) :
    (op.apply c).maxSize = c.maxSize := by
  cases op with
  | get now k =>
    simp only [CacheOp.apply, LRUCache.get]
    split
    · rfl
    · split <;> rfl
  | set now k v =>
    simp only [CacheOp.apply, LRUCache.set]
    exact evictIfFull_maxSize c
  | has now k =>
    simp only [CacheOp.apply, LRUCache.has, LRUCache.get]
    split
    · rfl
    · split <;> rfl
  | del k => rfl
  | clear => rfl

theorem apply_length_le (c : LRUCache) (op : CacheOp)
    (hmax : 1 ≤ c.maxSize) (hle : c.cache.length ≤ c.maxSize) :
    (op.apply c).cache.length ≤ c.maxSize := by
  cases op with
  | get now k => exact le_trans (get_state_length_le c now k) hle
  | set now k v => exact set_state_length_le c now k v hmax hle
  | has now k =>
    simpa only [CacheOp.apply, LRUCache.has] using
      le_trans (get_state_length_le c now k) hle
  | del k => exact le_trans (mapDelete_length_le _ _) hle
  | clear => simp [CacheOp.apply, LRUCache.clear]

theorem runCacheOps_length_le (ops : List CacheOp) (c : LRUCache)
    (hmax : 1 ≤ c.maxSize) (hle : c.cache.length ≤ c.maxSize) :
    (runCacheOps c ops).cache.length ≤ (runCacheOps c ops).maxSize := by
  induction ops generalizing c with
  | nil => exact le_trans hle (le_of_eq rfl)
  | cons op ops ih =>
    simp only [runCacheOps]
    have hm := apply_maxSize_eq c op
    exact ih (op.apply c) (hm ▸ hmax) (hm ▸ apply_length_le c op hmax hle)

theorem runCacheOps_maxSize_eq (ops : List CacheOp) (c : LRUCache) :
    (runCacheOps c ops).maxSize = c.maxSize := by
  induction ops generalizing c with
  | nil => rfl
  | cons op ops ih => rw [runCacheOps, ih, apply_maxSize_eq]

/-- C4: starting from a fresh cache (`maxSize ≥ 1`, as configured:
`CONFIG.CACHE_MAX_SIZE = 100`), no sequence of `get`/`set`/`has`/`delete`/
`clear` operations ever makes the number of stored entries exceed
`maxSize`; and `get` returns not-found (and never the stored value) on any
entry whose expiry lies strictly in the past (`Date.now() > item.expiry`). -/
theorem cache_size_bound_and_expired_get
    (maxSize ttlMinutes : Nat) (ops : List CacheOp)
    (c : LRUCache) (now : Nat) (k : String) (item : CacheEntry)
    (hmax : 1 ≤ maxSize)
    (hget : mapGet c.cache k = some item) (hexp : item.expiry < now) :
    (runCacheOps (LRUCache.init maxSize ttlMinutes) ops).cache.length ≤ maxSize
    ∧ (c.get now k).1 = none := by
  constructor
  · have h := runCacheOps_length_le ops (LRUCache.init maxSize ttlMinutes)
      hmax (by simp [LRUCache.init])
    rwa [runCacheOps_maxSize_eq] at h
  · unfold LRUCache.get
    rw [hget]
    simp [hexp]

/-- Concrete cache state used by several witnesses. -/
def entryA : CacheEntry := { value := ⟨some 2⟩, expiry := 100, timestamp := 0 }

def entryB : CacheEntry := { value := ⟨some 4⟩, expiry := 200, timestamp := 1 }

def cacheAB : LRUCache :=
  { cache := [("a", entryA), ("b", entryB)], maxSize := 2, ttl := 3600000,
    hits := 0, misses := 0 }

theorem cache_size_bound_and_expired_get_witness :
    1 ≤ 2 ∧ mapGet cacheAB.cache "a" = some entryA ∧ entryA.expiry < 101 ∧
    ((runCacheOps (LRUCache.init 2 60)
        [.set 0 "a" ⟨some 2⟩, .set 1 "b" ⟨some 4⟩,
         .set 2 "c" ⟨some 6⟩]).cache.length ≤ 2
      ∧ (cacheAB.get 101 "a").1 = none) :=
  ⟨by decide, by decide, by decide,
    cache_size_bound_and_expired_get 2 60
      [.set 0 "a" ⟨some 2⟩, .set 1 "b" ⟨some 4⟩, .set 2 "c" ⟨some 6⟩]
      cacheAB 101 "a" entryA (by decide) (by decide) (by decide)⟩

/-! ### C5 / C10: which entry is evicted by `set` -/

theorem mapGet_isSome_of_mem (m : CacheMap) (k : String)
    (h : k ∈ m.map Prod.fst) : ∃ w, mapGet m k = some w := by
  induction m with
  | nil => simp at h
  | cons e rest ih =>
    simp only [List.map_cons, List.mem_cons] at h
    by_cases heq : e.1 = k
    · exact ⟨e.2, by simp [mapGet, heq]⟩
    · have : k ∈ rest.map Prod.fst := by
        cases h with
        | inl h' => exact absurd h'.symm heq
        | inr h' => exact h'
      obtain ⟨w, hw⟩ := ih this
      exact ⟨w, by simp [mapGet, heq, hw]⟩

theorem mapSet_fst_of_get_some (m : CacheMap) (k : String)
    (v w : CacheEntry) (h : mapGet m k = some w) :
    (mapSet m k v).map Prod.fst = m.map Prod.fst := by
  induction m with
  | nil => simp [mapGet] at h
  | cons e rest ih =>
    simp only [mapGet] at h
    simp only [mapSet]
    split
    · rename_i heq
      simp [heq]
    · rename_i hne
      rw [if_neg hne] at h
      simp [ih h]

/-- C5: calling `set(key, value)` with a fresh key on a full cache
(`size = maxSize`) evicts exactly the entry in the earliest access-order
position (the map head) — every other entry survives, in order — and
appends the fresh entry with `expiry = now + ttl`.  Access order is LRU
order because `get` (and hence `has`, which is `get(key) !== null`)
moves a hit to the last position, as the second conjunct states. -/
theorem lru_set_fresh_key_evicts_lru (c : LRUCache) (now : Nat) (k : String)
    (v : JSValue) (e0 : String × CacheEntry) (rest : CacheMap)
    (hnd : (c.cache.map Prod.fst).Nodup)
    (hc : c.cache = e0 :: rest)
    (hfull : c.cache.length = c.maxSize)
    (hfresh : k ∉ c.cache.map Prod.fst) :
    (c.set now k v).cache = rest ++ [(k, ⟨v, now + c.ttl, now⟩)]
    ∧ ∀ (k' : String) (item : CacheEntry), mapGet c.cache k' = some item →
        ¬ item.expiry < now →
        (c.get now k').2.cache = mapDelete c.cache k' ++ [(k', item)]
        ∧ (c.has now k').2.cache = mapDelete c.cache k' ++ [(k', item)] := by
  have hfulle : c.maxSize ≤ c.cache.length := le_of_eq hfull.symm
  have hevict : c.evictIfFull.cache = rest :=
    evictIfFull_cache_of_full c e0 rest hc hfulle
  constructor
  · unfold LRUCache.set
    simp only [hevict]
    apply mapSet_of_get_none
    apply mapGet_eq_none_of_not_mem
    intro hmem
    exact hfresh (by rw [hc]; simp [hmem])
  · intro k' item hget hexp
    have hprom : (c.get now k').2.cache = mapDelete c.cache k' ++ [(k', item)] := by
      unfold LRUCache.get
      rw [hget]
      simp only [if_neg hexp]
      exact mapSet_of_get_none _ _ _ (mapGet_mapDelete_self c.cache k' hnd)
    exact ⟨hprom, by simpa only [LRUCache.has] using hprom⟩

def freshEntryC (now ttl : Nat) : CacheEntry :=
  { value := ⟨some 6⟩, expiry := now + ttl, timestamp := now }

theorem lru_set_fresh_key_evicts_lru_witness :
    ((cacheAB.cache.map Prod.fst).Nodup ∧
     cacheAB.cache = ("a", entryA) :: [("b", entryB)] ∧
     cacheAB.cache.length = cacheAB.maxSize ∧
     "c" ∉ cacheAB.cache.map Prod.fst ∧
     mapGet cacheAB.cache "a" = some entryA ∧ ¬ entryA.expiry < 7) ∧
    (cacheAB.set 7 "c" ⟨some 6⟩).cache
      = [("b", entryB)] ++ [("c", ⟨⟨some 6⟩, 7 + cacheAB.ttl, 7⟩)] ∧
    (cacheAB.get 7 "a").2.cache = mapDelete cacheAB.cache "a" ++ [("a", entryA)] := by
  refine ⟨⟨by decide, by decide, by decide, by decide, by decide, by decide⟩, ?_, ?_⟩
  · exact (lru_set_fresh_key_evicts_lru cacheAB 7 "c" ⟨some 6⟩ ("a", entryA)
      [("b", entryB)] (by decide) (by decide) (by decide) (by decide)).1
  · exact ((lru_set_fresh_key_evicts_lru cacheAB 7 "c" ⟨some 6⟩ ("a", entryA)
      [("b", entryB)] (by decide) (by decide) (by decide) (by decide)).2
      "a" entryA (by decide) (by decide)).1

/-- C10: calling `set(key, value)` on a full cache (`size = maxSize`) when
`key` is already present still evicts the head (least-recently-used) entry;
when `key` is not itself that head entry, a different key's entry is
removed and the size after the in-place overwrite is `maxSize - 1`. -/
theorem lru_set_existing_key_still_evicts (c : LRUCache) (now : Nat)
    (k : String) (v : JSValue) (e0 : String × CacheEntry) (rest : CacheMap)
    (hnd : (c.cache.map Prod.fst).Nodup)
    (hc : c.cache = e0 :: rest)
    (hfull : c.cache.length = c.maxSize)
    (hmem : k ∈ c.cache.map Prod.fst)
    (hne : k ≠ e0.1) :
    (c.set now k v).cache.length = c.maxSize - 1
    ∧ e0.1 ∉ (c.set now k v).cache.map Prod.fst
    ∧ k ∈ (c.set now k v).cache.map Prod.fst := by
  have hfulle : c.maxSize ≤ c.cache.length := le_of_eq hfull.symm
  have hevict : c.evictIfFull.cache = rest :=
    evictIfFull_cache_of_full c e0 rest hc hfulle
  have hmemrest : k ∈ rest.map Prod.fst := by
    rw [hc] at hmem
    simp only [List.map_cons, List.mem_cons] at hmem
    cases hmem with
    | inl h => exact absurd h hne
    | inr h => exact h
  obtain ⟨w, hw⟩ := mapGet_isSome_of_mem rest k hmemrest
  have hkeys : ((c.set now k v).cache).map Prod.fst = rest.map Prod.fst := by
    unfold LRUCache.set
    simp only [hevict]
    exact mapSet_fst_of_get_some rest k _ w hw
  refine ⟨?_, ?_, ?_⟩
  · unfold LRUCache.set
    simp only [hevict]
    rw [mapSet_length_of_get rest k _ w hw]
    have : (e0 :: rest).length = c.maxSize := hc ▸ hfull
    simp only [List.length_cons] at this
    omega
  · rw [hkeys]
    rw [hc] at hnd
    simp only [List.map_cons, List.nodup_cons] at hnd
    exact hnd.1
  · rw [hkeys]
    exact hmemrest

theorem lru_set_existing_key_still_evicts_witness :
    ((cacheAB.cache.map Prod.fst).Nodup ∧
     cacheAB.cache = ("a", entryA) :: [("b", entryB)] ∧
     cacheAB.cache.length = cacheAB.maxSize ∧
     "b" ∈ cacheAB.cache.map Prod.fst ∧ "b" ≠ "a") ∧
    ((cacheAB.set 7 "b" ⟨some 6⟩).cache.length = cacheAB.maxSize - 1 ∧
     "a" ∉ (cacheAB.set 7 "b" ⟨some 6⟩).cache.map Prod.fst ∧
     "b" ∈ (cacheAB.set 7 "b" ⟨some 6⟩).cache.map Prod.fst) :=
  ⟨⟨by decide, by decide, by decide, by decide, by decide⟩,
   lru_set_existing_key_still_evicts cacheAB 7 "b" ⟨some 6⟩ ("a", entryA)
     [("b", entryB)] (by decide) (by decide) (by decide) (by decide) (by decide)⟩

/-! ### C8: cache statistics -/

/-- Number of `get`/`has` calls since the last `clear()` in an operation
sequence, starting from a count of `n` carried over. -/
def countGetHasFold (n : Nat) : List CacheOp → Nat
  | [] => n
  | .get _ _ :: ops => countGetHasFold (n + 1) ops
  | .has _ _ :: ops => countGetHasFold (n + 1) ops
  | .set _ _ _ :: ops => countGetHasFold n ops
  | .del _ :: ops => countGetHasFold n ops
  | .clear :: ops => countGetHasFold 0 ops

theorem evictIfFull_hits (c : LRUCache) : c.evictIfFull.hits = c.hits := by
  unfold LRUCache.evictIfFull
  split
  · cases c.cache <;> rfl
  · rfl

theorem evictIfFull_misses (c : LRUCache) : c.evictIfFull.misses = c.misses := by
  unfold LRUCache.evictIfFull
  split
  · cases c.cache <;> rfl
  · rfl

/-- Each `get`/`has` call increments exactly one of the two counters (their
sum grows by one); `set` and `delete` touch neither; `clear` resets both. -/
theorem apply_counter_sum (c : LRUCache) (op : CacheOp) :
    (op.apply c).hits + (op.apply c).misses =
      (match op with
       | .get _ _ => c.hits + c.misses + 1
       | .has _ _ => c.hits + c.misses + 1
       | .set _ _ _ => c.hits + c.misses
       | .del _ => c.hits + c.misses
       | .clear => 0) := by
  cases op with
  | get now k =>
    simp only [CacheOp.apply, LRUCache.get]
    split
    · simp; omega
    · split <;> (simp; omega)
  | has now k =>
    simp only [CacheOp.apply, LRUCache.has, LRUCache.get]
    split
    · simp; omega
    · split <;> (simp; omega)
  | set now k v =>
    simp only [CacheOp.apply, LRUCache.set]
    rw [evictIfFull_hits, evictIfFull_misses]
  | del k => rfl
  | clear => rfl

theorem runCacheOps_counter_sum (ops : List CacheOp) (c : LRUCache) :
    (runCacheOps c ops).hits + (runCacheOps c ops).misses =
      countGetHasFold (c.hits + c.misses) ops := by
  induction ops generalizing c with
  | nil => rfl
  | cons op ops ih =>
    rw [runCacheOps]
    rw [ih (op.apply c)]
    have h := apply_counter_sum c op
    cases op with
    | get now k => rw [countGetHasFold]; rw [h]
    | has now k => rw [countGetHasFold]; rw [h]
    | set now k v => rw [countGetHasFold]; rw [h]
    | del k => rw [countGetHasFold]; rw [h]
    | clear => rw [countGetHasFold]; rw [h]

/-- C8: after any operation sequence on a fresh cache (equivalently, since
the last `clear()`, which zeroes both counters), `getStats()` reports
`hits + misses` equal to the number of `get`/`has` calls made since then,
and `hitRate` equal to `((hits / total) * 100).toFixed(2) + '%'` — under
exact arithmetic — with `"0.00%"` when no `get`/`has` call was made. -/
theorem cache_stats_counters (maxSize ttlMinutes : Nat) (ops : List CacheOp) :
    (runCacheOps (LRUCache.init maxSize ttlMinutes) ops).getStats.hits
      + (runCacheOps (LRUCache.init maxSize ttlMinutes) ops).getStats.misses
      = countGetHasFold 0 ops
    ∧ ((runCacheOps (LRUCache.init maxSize ttlMinutes) ops).getStats.hits
        + (runCacheOps (LRUCache.init maxSize ttlMinutes) ops).getStats.misses
        = 0 →
       (runCacheOps (LRUCache.init maxSize ttlMinutes) ops).getStats.hitRate
        = "0.00%")
    ∧ (0 < (runCacheOps (LRUCache.init maxSize ttlMinutes) ops).getStats.hits
        + (runCacheOps (LRUCache.init maxSize ttlMinutes) ops).getStats.misses →
       (runCacheOps (LRUCache.init maxSize ttlMinutes) ops).getStats.hitRate
        = hitRateNumString
            (runCacheOps (LRUCache.init maxSize ttlMinutes) ops).getStats.hits
            ((runCacheOps (LRUCache.init maxSize ttlMinutes) ops).getStats.hits
              + (runCacheOps (LRUCache.init maxSize ttlMinutes) ops).getStats.misses)
            ++ "%") := by
  refine ⟨?_, ?_, ?_⟩
  · have h := runCacheOps_counter_sum ops (LRUCache.init maxSize ttlMinutes)
    simpa [LRUCache.getStats, LRUCache.init] using h
  · intro h0
    simp only [LRUCache.getStats] at h0 ⊢
    rw [if_neg (by omega)]
    rfl
  · intro hpos
    simp only [LRUCache.getStats] at hpos ⊢
    rw [if_pos hpos]

/-- Concrete run for the C8 witness: one miss, then a hit. -/
def statsOpsW : List CacheOp :=
  [.get 0 "k", .set 0 "k" ⟨some 2⟩, .get 1 "k"]

theorem cache_stats_counters_witness :
    (runCacheOps (LRUCache.init 2 60) statsOpsW).getStats.hits
      + (runCacheOps (LRUCache.init 2 60) statsOpsW).getStats.misses
      = countGetHasFold 0 statsOpsW
    ∧ 0 < (runCacheOps (LRUCache.init 2 60) statsOpsW).getStats.hits
        + (runCacheOps (LRUCache.init 2 60) statsOpsW).getStats.misses
    ∧ (runCacheOps (LRUCache.init 2 60) statsOpsW).getStats.hitRate = "50.00%" := by
  have h := cache_stats_counters 2 60 statsOpsW
  refine ⟨h.1, by decide, ?_⟩
  rw [h.2.2 (by decide)]
  decide

/-! ### Rate limiter (rate-limiter.js)

`Date.now()` is the explicit `now` argument; the `await` of
`setTimeout(resolve, waitTime)` advances the clock by exactly `waitTime`
(idealized timer, single-threaded event loop with no interleaved mutation).
JS subtraction of timestamps is modelled by truncated `Nat` subtraction,
which agrees with the JS comparisons here whenever `windowMs ≥ 1` (the
deployed configuration is `RATE_LIMIT_WINDOW_MS = 3600000`). -/

/-- State of `class RateLimiter`. -/
structure RateLimiter where
  maxRequests : Nat
  windowMs : Nat
  requests : List Nat
deriving DecidableEq, Repr

/-- `new RateLimiter(maxRequests, windowMs)`. -/
def RateLimiter.init (maxRequests windowMs : Nat) : RateLimiter :=
  { maxRequests := maxRequests, windowMs := windowMs, requests := [] }

/-- `_cleanupExpired()`:
`this.requests = this.requests.filter(time => now - time < this.windowMs)`. -/
def RateLimiter.cleanupExpired (rl : RateLimiter) (now : Nat) : RateLimiter :=
  { rl with requests := rl.requests.filter (fun t => now - t < rl.windowMs) }

/-- Second half of `cleanup()`: "Hard cap to prevent unbounded growth" —
`if (this.requests.length > this.maxRequests * 10)` truncate via
`this.requests.slice(-this.maxRequests)` (which keeps the final
`maxRequests` entries; JS `slice(-0)` keeps the whole array). -/
def RateLimiter.hardCap (rl : RateLimiter) : RateLimiter :=
  if rl.maxRequests * 10 < rl.requests.length then
    { rl with requests :=
        if rl.maxRequests = 0 then rl.requests
        else rl.requests.drop (rl.requests.length - rl.maxRequests) }
  else rl

/-- `cleanup()`: purge expired timestamps, then apply the hard cap. -/
def RateLimiter.cleanup (rl : RateLimiter) (now : Nat) : RateLimiter :=
  (rl.cleanupExpired now).hardCap

/-- Whether the hard-cap truncation branch of `cleanup()` fires. -/
def RateLimiter.capFires (rl : RateLimiter) (now : Nat) : Bool :=
  (rl.cleanupExpired now).maxRequests * 10
    < (rl.cleanupExpired now).requests.length

/-- `acquire(depth)` with `fuel = MAX_RECURSION_DEPTH - depth` (the code
starts at `depth = 0` with `MAX_RECURSION_DEPTH = 10` and throws when the
depth is exhausted).  When the post-cleanup count has reached
`maxRequests`, wait `windowMs - (now - oldestRequest)` and retry;
otherwise push `now`.  (`requests[0]` on an empty array is `undefined`,
reachable only for `maxRequests = 0`; JS then waits `NaN` ms, i.e. a
timer that fires immediately, modelled as a zero wait.)  Returns the
final state and either the completion time or the thrown error. -/
def acquireAux : Nat → Nat → RateLimiter → RateLimiter × Except String Nat
  | 0, _, rl =>
    (rl, .error "Rate limiter recursion limit exceeded - possible DoS attempt or timing issue")
  | fuel + 1, now, rl =>
    if (rl.cleanup now).maxRequests ≤ (rl.cleanup now).requests.length then
      match (rl.cleanup now).requests.head? with
      | some oldest =>
          acquireAux fuel (now + ((rl.cleanup now).windowMs - (now - oldest)))
            (rl.cleanup now)
      | none => acquireAux fuel now (rl.cleanup now)
    else
      ({ rl.cleanup now with requests := (rl.cleanup now).requests ++ [now] },
        .ok now)

/-- `acquire()` as called by clients (depth 0); `enabled` is
`CONFIG.FEATURES.ENABLE_RATE_LIMITING` (deployed value `true`). -/
def RateLimiter.acquire (rl : RateLimiter) (enabled : Bool) (now : Nat) :
    RateLimiter × Except String Nat :=
  if enabled then acquireAux 10 now rl else (rl, .ok now)

/-- `canRequest()`. -/
def RateLimiter.canRequest (rl : RateLimiter) (now : Nat) :
    Bool × RateLimiter :=
  (decide ((rl.cleanupExpired now).requests.length < rl.maxRequests),
    rl.cleanupExpired now)

/-- Result object of `getStatus()`. -/
structure RLStatus where
  remaining : Nat
  total : Nat
  resetIn : Nat
  window : Nat
deriving DecidableEq, Repr

/-- `getStatus()`: `remaining = Math.max(0, maxRequests - length)` (which
is `Nat` subtraction), `resetIn = windowMs - (now - requests[0])` when any
timestamp is live, else `0`. -/
def RateLimiter.getStatus (rl : RateLimiter) (now : Nat) :
    RLStatus × RateLimiter :=
  ({ remaining := rl.maxRequests - (rl.cleanupExpired now).requests.length,
     total := rl.maxRequests,
     resetIn :=
       match (rl.cleanupExpired now).requests.head? with
       | some oldest => rl.windowMs - (now - oldest)
       | none => 0,
     window := rl.windowMs },
    rl.cleanupExpired now)

/-- `reset()`. -/
def RateLimiter.reset (rl : RateLimiter) : RateLimiter :=
  { rl with requests := [] }

/-- One public rate-limiter operation. -/
inductive RLOp where
  | acquire (now : Nat)
  | canRequest (now : Nat)
  | getStatus (now : Nat)
  | reset
  | cleanup (now : Nat)
deriving DecidableEq, Repr

/-- Apply one operation to the limiter state (discarding outputs);
`acquire` runs with rate limiting enabled. -/
def RLOp.apply (rl : RateLimiter) : RLOp → RateLimiter
  | .acquire now => (rl.acquire true now).1
  | .canRequest now => (rl.canRequest now).2
  | .getStatus now => (rl.getStatus now).2
  | .reset => rl.reset
  | .cleanup now => rl.cleanup now

/-- Run a sequence of rate-limiter operations. -/
def runRLOps (rl : RateLimiter) : List RLOp → RateLimiter
  | [] => rl
  | op :: ops => runRLOps (op.apply rl) ops

/-! ### C9: the timestamp list is bounded and the hard cap is dead code -/

theorem cleanupExpired_length_le (rl : RateLimiter) (now : Nat) :
    (rl.cleanupExpired now).requests.length ≤ rl.requests.length :=
  List.length_filter_le _ _

theorem cleanupExpired_max (rl : RateLimiter) (now : Nat) :
    (rl.cleanupExpired now).maxRequests = rl.maxRequests := rfl

theorem hardCap_eq_self (rl : RateLimiter)
    (h : rl.requests.length ≤ rl.maxRequests * 10) : rl.hardCap = rl := by
  unfold RateLimiter.hardCap
  rw [if_neg (by omega)]

theorem hardCap_max (rl : RateLimiter) :
    rl.hardCap.maxRequests = rl.maxRequests := by
  unfold RateLimiter.hardCap
  split
  · rfl
  · rfl

theorem hardCap_window (rl : RateLimiter) :
    rl.hardCap.windowMs = rl.windowMs := by
  unfold RateLimiter.hardCap
  split
  · rfl
  · rfl

theorem cleanup_eq_purge_of_le (rl : RateLimiter) (now : Nat)
    (h : rl.requests.length ≤ rl.maxRequests) :
    rl.cleanup now = rl.cleanupExpired now := by
  unfold RateLimiter.cleanup
  apply hardCap_eq_self
  have h1 := cleanupExpired_length_le rl now
  rw [cleanupExpired_max]
  omega

theorem cleanup_max (rl : RateLimiter) (now : Nat) :
    (rl.cleanup now).maxRequests = rl.maxRequests := by
  unfold RateLimiter.cleanup
  rw [hardCap_max, cleanupExpired_max]

theorem cleanup_window (rl : RateLimiter) (now : Nat) :
    (rl.cleanup now).windowMs = rl.windowMs := by
  unfold RateLimiter.cleanup
  rw [hardCap_window]
  rfl

theorem cleanup_length_le (rl : RateLimiter) (now : Nat)
    (h : rl.requests.length ≤ rl.maxRequests) :
    (rl.cleanup now).requests.length ≤ rl.maxRequests := by
  rw [cleanup_eq_purge_of_le rl now h]
  exact le_trans (cleanupExpired_length_le rl now) h

theorem acquireAux_max_eq (fuel : Nat) : ∀ (now : Nat) (rl : RateLimiter),
    (acquireAux fuel now rl).1.maxRequests = rl.maxRequests := by
  induction fuel with
  | zero => intro now rl; rfl
  | succ fuel ih =>
    intro now rl
    simp only [acquireAux]
    split
    · split
      · rw [ih]; exact cleanup_max rl now
      · rw [ih]; exact cleanup_max rl now
    · exact cleanup_max rl now

theorem acquireAux_length_le (fuel : Nat) : ∀ (now : Nat) (rl : RateLimiter),
    rl.requests.length ≤ rl.maxRequests →
    (acquireAux fuel now rl).1.requests.length ≤ rl.maxRequests := by
  induction fuel with
  | zero => intro now rl h; exact h
  | succ fuel ih =>
    intro now rl h
    have hclen : (rl.cleanup now).requests.length ≤ (rl.cleanup now).maxRequests := by
      rw [cleanup_max]
      exact cleanup_length_le rl now h
    simp only [acquireAux]
    split
    · split
      · calc (acquireAux fuel _ (rl.cleanup now)).1.requests.length
          ≤ (rl.cleanup now).maxRequests := ih _ _ hclen
          _ = rl.maxRequests := cleanup_max rl now
      · calc (acquireAux fuel _ (rl.cleanup now)).1.requests.length
          ≤ (rl.cleanup now).maxRequests := ih _ _ hclen
          _ = rl.maxRequests := cleanup_max rl now
    · rename_i hlt
      have : (rl.cleanup now).requests.length < (rl.cleanup now).maxRequests := by
        omega
      have hm := cleanup_max rl now
      simp only [List.length_append, List.length_cons, List.length_nil]
      omega

theorem rlop_apply_length_le (rl : RateLimiter) (op : RLOp)
    (h : rl.requests.length ≤ rl.maxRequests) :
    (op.apply rl).requests.length ≤ rl.maxRequests := by
  cases op with
  | acquire now =>
    simp only [RLOp.apply, RateLimiter.acquire, if_pos]
    exact acquireAux_length_le 10 now rl h
  | canRequest now =>
    exact le_trans (cleanupExpired_length_le rl now) h
  | getStatus now =>
    exact le_trans (cleanupExpired_length_le rl now) h
  | reset => simp [RLOp.apply, RateLimiter.reset]
  | cleanup now => exact cleanup_length_le rl now h

theorem rlop_apply_max_eq (rl : RateLimiter) (op : RLOp) :
    (op.apply rl).maxRequests = rl.maxRequests := by
  cases op with
  | acquire now =>
    simp only [RLOp.apply, RateLimiter.acquire, if_pos]
    exact acquireAux_max_eq 10 now rl
  | canRequest now => rfl
  | getStatus now => rfl
  | reset => rfl
  | cleanup now => exact cleanup_max rl now

theorem runRLOps_length_le (ops : List RLOp) (rl : RateLimiter)
    (h : rl.requests.length ≤ rl.maxRequests) :
    (runRLOps rl ops).requests.length ≤ (runRLOps rl ops).maxRequests := by
  induction ops generalizing rl with
  | nil => exact h
  | cons op ops ih =>
    simp only [runRLOps]
    apply ih
    rw [rlop_apply_max_eq]
    exact rlop_apply_length_le rl op h

theorem runRLOps_max_eq (ops : List RLOp) (rl : RateLimiter) :
    (runRLOps rl ops).maxRequests = rl.maxRequests := by
  induction ops generalizing rl with
  | nil => rfl
  | cons op ops ih => rw [runRLOps, ih, rlop_apply_max_eq]

/-- C9: after any sequence of `acquire`/`canRequest`/`getStatus`/`reset`/
`cleanup` operations from a fresh limiter, at most `maxRequests`
timestamps are recorded (`acquire` pushes only when the purged count is
strictly below `maxRequests`); consequently the hard-cap truncation branch
of `cleanup()` (`length > maxRequests * 10`) cannot fire on any state
satisfying that bound. -/
theorem rl_bounded_and_hard_cap_unreachable (n w : Nat) (ops : List RLOp)
    (rl : RateLimiter) (now : Nat)
    (hrl : rl.requests.length ≤ rl.maxRequests) :
    (runRLOps (RateLimiter.init n w) ops).requests.length ≤ n
    ∧ rl.capFires now = false := by
  constructor
  · have h := runRLOps_length_le ops (RateLimiter.init n w) (by simp [RateLimiter.init])
    rwa [runRLOps_max_eq] at h
  · have h1 := cleanupExpired_length_le rl now
    simp only [RateLimiter.capFires, cleanupExpired_max, decide_eq_false_iff_not,
      not_lt]
    omega

theorem rl_bounded_and_hard_cap_unreachable_witness :
    (RateLimiter.init 2 100).requests.length ≤ (RateLimiter.init 2 100).maxRequests
    ∧ ((runRLOps (RateLimiter.init 2 100)
          [.acquire 0, .acquire 1, .acquire 2, .getStatus 3]).requests.length ≤ 2
       ∧ (RateLimiter.init 2 100).capFires 3 = false) :=
  ⟨by decide,
    rl_bounded_and_hard_cap_unreachable 2 100
      [.acquire 0, .acquire 1, .acquire 2, .getStatus 3]
      (RateLimiter.init 2 100) 3 (by decide)⟩

/-! ### C6: N+1 rapid `acquire()` calls -/

theorem cleanup_eq_self (rl : RateLimiter) (now : Nat)
    (hfilter : ∀ t ∈ rl.requests, now - t < rl.windowMs)
    (hlen : rl.requests.length ≤ rl.maxRequests) :
    rl.cleanup now = rl := by
  rw [cleanup_eq_purge_of_le rl now hlen]
  unfold RateLimiter.cleanupExpired
  rw [List.filter_eq_self.mpr]
  intro a ha
  simpa using hfilter a ha

/-- Unfolding step for a blocked `acquire`: when the post-cleanup count has
reached `maxRequests`, the call sleeps `windowMs - (now - oldest)` ms and
retries at the new clock value. -/
theorem acquireAux_waits (fuel now : Nat) (rl : RateLimiter) (oldest : Nat)
    (hfull : (rl.cleanup now).maxRequests ≤ (rl.cleanup now).requests.length)
    (hhead : (rl.cleanup now).requests.head? = some oldest) :
    acquireAux (fuel + 1) now rl
      = acquireAux fuel (now + ((rl.cleanup now).windowMs - (now - oldest)))
          (rl.cleanup now) := by
  simp only [acquireAux]
  rw [if_pos hfull, hhead]

/-- Unfolding step for an unblocked `acquire`: when the post-cleanup count
is below `maxRequests`, `now` is pushed and the call completes at `now`. -/
theorem acquireAux_completes (fuel now : Nat) (rl : RateLimiter)
    (h : (rl.cleanup now).requests.length < (rl.cleanup now).maxRequests) :
    acquireAux (fuel + 1) now rl
      = ({ rl.cleanup now with
            requests := (rl.cleanup now).requests ++ [now] }, .ok now) := by
  simp only [acquireAux]
  rw [if_neg (by omega)]

theorem acquire_immediate (rl : RateLimiter) (now : Nat)
    (hfilter : ∀ t ∈ rl.requests, now - t < rl.windowMs)
    (hlt : rl.requests.length < rl.maxRequests) :
    rl.acquire true now = ({ rl with requests := rl.requests ++ [now] }, .ok now) := by
  have hcl : rl.cleanup now = rl := cleanup_eq_self rl now hfilter (le_of_lt hlt)
  have h1 : rl.acquire true now = acquireAux 10 now rl := by
    unfold RateLimiter.acquire
    simp
  have h2 : acquireAux 10 now rl
      = ({ rl.cleanup now with
            requests := (rl.cleanup now).requests ++ [now] }, .ok now) :=
    acquireAux_completes 9 now rl (by rw [hcl]; exact hlt)
  rw [h1, h2, hcl]

/-- Sequential `acquire()` calls at the given clock values. -/
def runAcquireTimes (rl : RateLimiter) : List Nat → RateLimiter
  | [] => rl
  | t :: ts => runAcquireTimes (rl.acquire true t).1 ts

/-- When there is room for all of them and every call falls inside the
window of every recorded timestamp, successive `acquire()` calls complete
immediately and just append their timestamps. -/
theorem runAcquireTimes_fills (ts : List Nat) : ∀ (rl : RateLimiter),
    rl.requests.length + ts.length ≤ rl.maxRequests →
    (∀ u ∈ ts, ∀ t ∈ rl.requests ++ ts, u - t < rl.windowMs) →
    runAcquireTimes rl ts = { rl with requests := rl.requests ++ ts } := by
  induction ts with
  | nil =>
    intro rl _ _
    simp [runAcquireTimes]
  | cons u ts ih =>
    intro rl hmax hwin
    have hstep : rl.acquire true u = ({ rl with requests := rl.requests ++ [u] }, .ok u) := by
      apply acquire_immediate
      · intro t ht
        exact hwin u (List.mem_cons_self _ _) t (List.mem_append_left _ ht)
      · simp only [List.length_cons] at hmax
        omega
    simp only [runAcquireTimes, hstep]
    rw [ih { rl with requests := rl.requests ++ [u] }]
    · simp [List.append_assoc]
    · simp only [List.length_append, List.length_cons, List.length_nil]
      simp only [List.length_cons] at hmax
      omega
    · intro u' hu' t ht
      show u' - t < rl.windowMs
      apply hwin u' (List.mem_cons_of_mem _ hu') t
      simp only [List.append_assoc, List.cons_append, List.nil_append] at ht ⊢
      exact ht

/-- C6: with `maxRequests = n` and `windowMs = w`, after `n` `acquire()`
calls in rapid succession (all clock values within `w` of the first call
`t0`, which records timestamp `t0`), the `(n+1)`-th call, issued at any
time `v` still inside the window, completes exactly at `t0 + w` — that is,
no earlier than `w` ms after the first call's recorded timestamp. -/
theorem rate_limiter_nth_plus_one_waits (n w t0 : Nat) (ts : List Nat)
    (v : Nat)
    (hn : (t0 :: ts).length = n)
    (hfirst : ∀ t ∈ t0 :: ts, t0 ≤ t ∧ t - t0 < w)
    (hvlo : t0 ≤ v) (hvwin : ∀ t ∈ t0 :: ts, v - t < w) :
    ((runAcquireTimes (RateLimiter.init n w) (t0 :: ts)).acquire true v).2
      = .ok (t0 + w) := by
  have hw : 0 < w := by
    have h := (hfirst t0 (List.mem_cons_self _ _)).2
    omega
  have hfill : runAcquireTimes (RateLimiter.init n w) (t0 :: ts)
      = { RateLimiter.init n w with requests := [] ++ (t0 :: ts) } := by
    apply runAcquireTimes_fills
    · simpa [RateLimiter.init] using le_of_eq hn
    · intro u hu t ht
      simp only [RateLimiter.init, List.nil_append] at ht ⊢
      have h1 := hfirst t ht
      have h2 := hfirst u hu
      omega
  have hS : ({ RateLimiter.init n w with requests := [] ++ (t0 :: ts) } : RateLimiter)
      = ⟨n, w, t0 :: ts⟩ := rfl
  rw [hfill, hS]
  have hcleanv : (⟨n, w, t0 :: ts⟩ : RateLimiter).cleanup v = ⟨n, w, t0 :: ts⟩ := by
    apply cleanup_eq_self
    · exact hvwin
    · exact le_of_eq hn
  have hacq : (⟨n, w, t0 :: ts⟩ : RateLimiter).acquire true v
      = acquireAux 10 v ⟨n, w, t0 :: ts⟩ := by
    unfold RateLimiter.acquire
    simp
  have hstep1 : acquireAux 10 v (⟨n, w, t0 :: ts⟩ : RateLimiter)
      = acquireAux 9 (v + (((⟨n, w, t0 :: ts⟩ : RateLimiter).cleanup v).windowMs
          - (v - t0))) ((⟨n, w, t0 :: ts⟩ : RateLimiter).cleanup v) :=
    acquireAux_waits 9 v _ t0
      (by rw [hcleanv]; exact le_of_eq hn.symm)
      (by rw [hcleanv]; rfl)
  have harg : v + ((⟨n, w, t0 :: ts⟩ : RateLimiter).windowMs
      - (v - t0)) = t0 + w := by
    show v + (w - (v - t0)) = t0 + w
    have h1 := hvwin t0 (List.mem_cons_self _ _)
    omega
  have hclean2len :
      ((⟨n, w, t0 :: ts⟩ : RateLimiter).cleanup (t0 + w)).requests.length
        < ((⟨n, w, t0 :: ts⟩ : RateLimiter).cleanup (t0 + w)).maxRequests := by
    rw [cleanup_eq_purge_of_le _ _ (le_of_eq hn)]
    show ((t0 :: ts).filter (fun t => decide (t0 + w - t < w))).length < n
    rw [List.filter_cons]
    have hp : (decide (t0 + w - t0 < w)) = false := by
      simp only [decide_eq_false_iff_not, not_lt]
      omega
    rw [hp]
    simp only [Bool.false_eq_true, if_false]
    have h1 := List.length_filter_le (fun t => decide (t0 + w - t < w)) ts
    have h2 : (t0 :: ts).length = n := hn
    simp only [List.length_cons] at h2
    omega
  have hstep2 : acquireAux 9 (t0 + w) (⟨n, w, t0 :: ts⟩ : RateLimiter)
      = ({ (⟨n, w, t0 :: ts⟩ : RateLimiter).cleanup (t0 + w) with
            requests :=
              ((⟨n, w, t0 :: ts⟩ : RateLimiter).cleanup (t0 + w)).requests
                ++ [t0 + w] }, .ok (t0 + w)) :=
    acquireAux_completes 8 (t0 + w) _ hclean2len
  rw [hacq, hstep1, hcleanv, harg, hstep2]

theorem rate_limiter_nth_plus_one_waits_witness :
    ([0, 1] : List Nat).length = 2
    ∧ (∀ t ∈ ([0, 1] : List Nat), 0 ≤ t ∧ t - 0 < 100)
    ∧ (0 ≤ 2 ∧ ∀ t ∈ ([0, 1] : List Nat), 2 - t < 100)
    ∧ ((runAcquireTimes (RateLimiter.init 2 100) [0, 1]).acquire true 2).2
        = .ok (0 + 100) :=
  ⟨rfl, by decide, ⟨by decide, by decide⟩,
    rate_limiter_nth_plus_one_waits 2 100 0 [1] 2 rfl (by decide) (by decide)
      (by decide)⟩

/-! ### `fetchWithRetry` (rate-limiter.js)

The leading `await rateLimiter.acquire()` is the `RateLimiter.acquire`
modelled above; the retry loop below is fed by an oracle giving the
outcome of the `fetch(...)` call of each attempt index.  The key control
detail, embedded faithfully: the `throw` for a non-ok status sits INSIDE
the `try` block, so it lands in the same `catch` block as network
failures, which applies the exponential backoff and retries unless the
attempt was the last one. -/

/-- An HTTP response as observed by `fetchWithRetry`: the status code and
the optional `Retry-After` header value (in seconds). -/
structure HttpResponse where
  status : Nat
  retryAfter : Option Nat
deriving DecidableEq, Repr

/-- `response.ok`: status in the inclusive range 200–299. -/
def HttpResponse.isOk (r : HttpResponse) : Bool :=
  decide (200 ≤ r.status) && decide (r.status ≤ 299)

/-- Outcome of a single `fetch()` call: a settled response, or a rejected
promise (network failure, or the abort fired by the timeout timer). -/
inductive FetchOutcome where
  | resp (r : HttpResponse)
  | netErr (msg : String)
deriving DecidableEq, Repr

/-- `CONFIG.INITIAL_RETRY_DELAY_MS`. -/
def INITIAL_RETRY_DELAY_MS : Nat := 1000

/-- `CONFIG.MAX_RETRY_DELAY_MS`. -/
def MAX_RETRY_DELAY_MS : Nat := 10000

/-- `CONFIG.MAX_RETRY_ATTEMPTS` (the default `maxRetries`). -/
def MAX_RETRY_ATTEMPTS : Nat := 3

/-- The backoff before the retry that follows attempt `attempt`:
`Math.min(INITIAL_RETRY_DELAY_MS * Math.pow(2, attempt), MAX_RETRY_DELAY_MS)`. -/
def backoffDelay (attempt : Nat) : Nat :=
  min (INITIAL_RETRY_DELAY_MS * 2 ^ attempt) MAX_RETRY_DELAY_MS

/-- The `for (attempt...)` loop of `fetchWithRetry`, with
`remaining = maxRetries - attempt` iterations left.  Returns the result
(success carries the winning response and its attempt index) together
with the list of waits (ms) performed, in order.  Case analysis of one
iteration, exactly as the source orders it:
429 → wait `Retry-After` (default 60) seconds and `continue`;
status ≥ 500 → throw, caught by the catch block: rethrow on the last
attempt, else backoff and retry;
other non-ok status (plain 4xx such as 404) → throw, likewise caught by
the catch block: rethrow on the last attempt, else backoff and retry;
ok → return the response.  A rejected `fetch` goes to the catch block
directly.  After the loop, the SAFETY net throws `lastError`. -/
def fetchLoop (oracle : Nat → FetchOutcome) (maxRetries : Nat) :
    Nat → Option String → Except String (HttpResponse × Nat) × List Nat
  | 0, lastError =>
    (.error (lastError.getD "Fetch failed after all retries with unknown error"), [])
  | remaining + 1, lastError =>
    match oracle (maxRetries - (remaining + 1)) with
    | .resp r =>
      if r.status = 429 then
        let out := fetchLoop oracle maxRetries remaining lastError
        (out.1, (r.retryAfter.getD 60) * 1000 :: out.2)
      else if 500 ≤ r.status then
        if remaining = 0 then (.error ("HTTP " ++ toString r.status), [])
        else
          let out := fetchLoop oracle maxRetries remaining
            (some ("HTTP " ++ toString r.status))
          (out.1, backoffDelay (maxRetries - (remaining + 1)) :: out.2)
      else if r.isOk = false then
        if remaining = 0 then (.error ("HTTP " ++ toString r.status), [])
        else
          let out := fetchLoop oracle maxRetries remaining
            (some ("HTTP " ++ toString r.status))
          (out.1, backoffDelay (maxRetries - (remaining + 1)) :: out.2)
      else (.ok (r, maxRetries - (remaining + 1)), [])
    | .netErr msg =>
      if remaining = 0 then (.error msg, [])
      else
        let out := fetchLoop oracle maxRetries remaining (some msg)
        (out.1, backoffDelay (maxRetries - (remaining + 1)) :: out.2)

/-- `fetchWithRetry(url, options, maxRetries)` after the rate-limiter
slot has been acquired. -/
def fetchWithRetry (oracle : Nat → FetchOutcome) (maxRetries : Nat) :
    Except String (HttpResponse × Nat) × List Nat :=
  fetchLoop oracle maxRetries maxRetries none

/-- Responses seen by the C2 failing input: attempt 0 gets an HTTP 404,
every later attempt gets an HTTP 200. -/
def oracle404then200 : Nat → FetchOutcome
  | 0 => .resp ⟨404, none⟩
  | _ + 1 => .resp ⟨200, none⟩

/-- C2 (bug evidence): with the default `maxRetries = 3`, a request whose
first response is HTTP 404 is NOT failed immediately — the thrown `HTTP
404` error is caught by the generic catch block, one 1000 ms backoff wait
is performed, and a second fetch attempt (index 1) runs and its 200
response is returned.  This contradicts the source's own comment
"Client errors (4xx) - don't retry". -/
theorem fetchWithRetry_404_retries :
    fetchWithRetry oracle404then200 MAX_RETRY_ATTEMPTS
      = (.ok (⟨200, none⟩, 1), [backoffDelay 0])
    ∧ backoffDelay 0 = 1000 := by
  constructor
  · rfl
  · rfl

/-! ### `getSizeBytes` (cache.js, two shipped variants) -/

/-- `JSON.stringify(item.value).length`: the string length, or the thrown
`TypeError` for a circular structure. -/
def stringifyLen (v : JSValue) : Except String Nat :=
  match v.jsonLen with
  | some n => .ok n
  | none => .error "Converting circular structure to JSON"

/-- `getSizeBytes()` of the plain cache variant (src/unnamed/part_000):
`size += key.length * 2; size += JSON.stringify(item.value).length * 2`
inside the loop, with no exception handling, so a stringify failure
propagates to the caller. -/
def getSizeBytesBasicLoop : CacheMap → Nat → Except String Nat
  | [], acc => .ok acc
  | (k, item) :: rest, acc =>
    match stringifyLen item.value with
    | .error e => .error e
    | .ok n => getSizeBytesBasicLoop rest (acc + k.length * 2 + n * 2)

/-- `LRUCache.getSizeBytes()` of src/unnamed/part_000. -/
def LRUCache.getSizeBytes (c : LRUCache) : Except String Nat :=
  getSizeBytesBasicLoop c.cache 0

/-- `Math.round` (round half toward positive infinity). -/
def jsRound (q : ℚ) : Int := ⌊q + 1/2⌋

/-- The memo fields `_cachedSize` / `_cacheSizeTimestamp` of the sampling
variant. -/
structure SizeMemo where
  cachedSize : Nat
  timestamp : Nat
deriving DecidableEq, Repr

/-- The sampling loop of `getSizeBytes()` in src/unnamed/part_001: the
first `maxSampleSize = 10` entries are measured (`try`/`catch` around the
stringify, falling back to a fixed 1000-byte estimate), after which the
remainder is extrapolated as `avgSize * (cache.size - count)` and the
loop breaks.  Sizes are JS numbers, modelled as exact rationals. -/
def sampLoop (total : Nat) : CacheMap → ℚ → Nat → Except String ℚ
  | [], size, _ => .ok size
  | (k, item) :: rest, size, count =>
    if count < 10 then
      match stringifyLen item.value with
      | .ok n =>
        sampLoop total rest (size + (k.length * 2 : Nat) + (n * 2 : Nat)) (count + 1)
      | .error _ =>
        sampLoop total rest (size + (k.length * 2 : Nat) + 1000) (count + 1)
    else
      .ok (size + size / (count : ℚ) * ((total : ℚ) - (count : ℚ)))

/-- Recomputation path of the sampling `getSizeBytes()`: run the loop,
round, and memoize. -/
def getSizeBytesRecompute (c : LRUCache) (now : Nat) :
    Except String (Nat × SizeMemo) :=
  match sampLoop c.cache.length c.cache 0 0 with
  | .error e => .error e
  | .ok size => .ok ((jsRound size).toNat, ⟨(jsRound size).toNat, now⟩)

/-- `LRUCache.getSizeBytes()` of src/unnamed/part_001: reuse the memoized
value when `_cachedSize` is truthy and younger than a minute
(`this._cachedSize && this._cacheSizeTimestamp > Date.now() - 60000`),
else recompute. -/
def LRUCache.getSizeBytesSampling (c : LRUCache) (memo : Option SizeMemo)
    (now : Nat) : Except String (Nat × SizeMemo) :=
  match memo with
  | some m =>
    if m.cachedSize ≠ 0 ∧ now - 60000 < m.timestamp then .ok (m.cachedSize, m)
    else getSizeBytesRecompute c now
  | none => getSizeBytesRecompute c now

theorem sampLoop_never_errors (total : Nat) (m : CacheMap) :
    ∀ (size : ℚ) (count : Nat), ∃ q, sampLoop total m size count = .ok q := by
  induction m with
  | nil => intro size count; exact ⟨size, rfl⟩
  | cons e rest ih =>
    intro size count
    rw [sampLoop]
    split
    · cases hs : stringifyLen e.2.value with
      | ok n => exact ih _ _
      | error msg => exact ih _ _
    · exact ⟨_, rfl⟩

theorem jsRound_natCast (n : Nat) : jsRound (n : ℚ) = (n : Int) := by
  unfold jsRound
  rw [show ((n : ℚ) + 1/2) = ((n : Int) : ℚ) + 1/2 by push_cast; ring]
  rw [Int.floor_int_add]
  norm_num

/-- C7 for the sampling variant: `getSizeBytes` always returns a number —
no input cache, memo state or clock makes it throw — and an unserializable
(circular) sampled value contributes exactly the fixed 1000-byte estimate:
on a one-entry cache holding an unserializable value the result is
`key.length * 2 + 1000`. -/
theorem getSizeBytesSampling_total (c : LRUCache) (memo : Option SizeMemo)
    (now : Nat) (k : String) (e t m2 : Nat) :
    (∃ r, c.getSizeBytesSampling memo now = .ok r)
    ∧ (LRUCache.mk [(k, ⟨⟨none⟩, e, t⟩)] m2 0 0 0).getSizeBytesSampling none now
        = .ok (k.length * 2 + 1000, ⟨k.length * 2 + 1000, now⟩) := by
  constructor
  · have hrec : ∃ r, getSizeBytesRecompute c now = .ok r := by
      obtain ⟨q, hq⟩ := sampLoop_never_errors c.cache.length c.cache 0 0
      exact ⟨_, by unfold getSizeBytesRecompute; rw [hq]⟩
    cases memo with
    | none => exact hrec
    | some m =>
      have hdef : c.getSizeBytesSampling (some m) now
          = if m.cachedSize ≠ 0 ∧ now - 60000 < m.timestamp
            then .ok (m.cachedSize, m) else getSizeBytesRecompute c now := rfl
      rw [hdef]
      by_cases hcond : m.cachedSize ≠ 0 ∧ now - 60000 < m.timestamp
      · exact ⟨_, by rw [if_pos hcond]⟩
      · rw [if_neg hcond]
        exact hrec
  · have hstep : (LRUCache.mk [(k, ⟨⟨none⟩, e, t⟩)] m2 0 0 0).getSizeBytesSampling
        none now
        = getSizeBytesRecompute (LRUCache.mk [(k, ⟨⟨none⟩, e, t⟩)] m2 0 0 0) now := rfl
    have hloop : sampLoop 1 [(k, ⟨⟨none⟩, e, t⟩)] 0 0
        = .ok (((k.length * 2 + 1000 : Nat) : ℚ)) := by
      show Except.ok ((0 : ℚ) + (k.length * 2 : Nat) + 1000) = _
      congr 1
      push_cast
      ring
    have hrec2 : getSizeBytesRecompute (LRUCache.mk [(k, ⟨⟨none⟩, e, t⟩)] m2 0 0 0) now
        = match sampLoop 1 [(k, ⟨⟨none⟩, e, t⟩)] 0 0 with
          | .error e => .error e
          | .ok size => .ok ((jsRound size).toNat, ⟨(jsRound size).toNat, now⟩) := rfl
    rw [hstep, hrec2, hloop]
    show Except.ok ((jsRound ((k.length * 2 + 1000 : Nat) : ℚ)).toNat, _) = _
    rw [jsRound_natCast, Int.toNat_natCast]

/-- Concrete cache holding a value `JSON.stringify` cannot serialize. -/
def circCache : LRUCache :=
  { cache := [("movie", ⟨⟨none⟩, 100, 0⟩)], maxSize := 100, ttl := 3600000,
    hits := 0, misses := 0 }

/-- C7 counterexample: the plain variant's `getSizeBytes()`
(src/unnamed/part_000) THROWS on a cache containing a value with a
circular reference — the `TypeError` from `JSON.stringify` propagates —
instead of falling back to a fixed per-entry estimate. -/
theorem getSizeBytes_basic_throws :
    circCache.getSizeBytes = .error "Converting circular structure to JSON" := rfl

theorem getSizeBytesSampling_total_witness :
    ∃ r, circCache.getSizeBytesSampling none 0 = .ok r :=
  (getSizeBytesSampling_total circCache none 0 "movie" 100 0 100).1

/-! ### Identifier patterns and scanners (config.js, metadata-resolver.js,
plex-api.js)

The JS regexes are embedded as character-list scanners.  All of them are
case-insensitive (`/i`); letters of the fixed parts are compared after
`toLower`, and captures keep the original characters. -/

/-- `CONFIG.PATTERNS.IMDB_ID.test(s)`: `/^tt\d{7,8}$/` (case-sensitive —
this regex carries no `i` flag). -/
def imdbIdPatternTest (s : String) : Bool :=
  match s.toList with
  | 't' :: 't' :: ds =>
    ds.all (·.isDigit) && decide (7 ≤ ds.length) && decide (ds.length ≤ 8)
  | _ => false

/-- `CONFIG.PATTERNS.YEAR.test(s)`: `/^(19|20)\d{2}$/`. -/
def yearPatternTest (s : String) : Bool :=
  match s.toList with
  | [c1, c2, c3, c4] =>
    ((c1 = '1' && c2 = '9') || (c1 = '2' && c2 = '0')) && c3.isDigit && c4.isDigit
  | _ => false

/-- Match a fixed lowercase needle case-insensitively as a prefix of the
haystack, returning the rest of the haystack on success. -/
def matchPrefixCI : List Char → List Char → Option (List Char)
  | [], rest => some rest
  | _ :: _, [] => none
  | n :: ns, h :: hs => if h.toLower = n then matchPrefixCI ns hs else none

/-- The capture group `(tt\d{minD,})` at the start of `cs` (`/i`; `\d+` is
`minD = 1`): `tt` followed by a maximal digit run of at least `minD`
digits.  Returns the captured text and the rest. -/
def captureTTMin (minD : Nat) (cs : List Char) : Option (String × List Char) :=
  match cs with
  | c1 :: c2 :: rest =>
    if c1.toLower = 't' ∧ c2.toLower = 't' then
      match rest.takeWhile Char.isDigit with
      | [] => none
      | ds =>
        if minD ≤ ds.length then
          some (String.mk (c1 :: c2 :: ds), rest.drop ds.length)
        else none
    else none
  | _ => none

/-- Pattern 1 of `findIMDbIdInPage`: `/imdb\.com\/title\/(tt\d+)/i`,
scanning left to right for the first position where the whole pattern
matches. -/
def scanPat1 : List Char → Option String
  | [] => none
  | c :: cs =>
    match matchPrefixCI (String.toList "imdb.com/title/") (c :: cs) with
    | some rest =>
      match captureTTMin 1 rest with
      | some (s, _) => some s
      | none => scanPat1 cs
    | none => scanPat1 cs

/-- The `.*\/(tt\d+)` tail of pattern 2: within the current line (`.` does
not match a newline), the greedy `.*` makes the capture come from the LAST
`/tt<digits>` occurrence. -/
def pat2Last : List Char → Option String → Option String
  | [], acc => acc
  | c :: cs, acc =>
    if c = '\n' then acc
    else if c = '/' then
      match captureTTMin 1 cs with
      | some (s, _) => pat2Last cs (some s)
      | none => pat2Last cs acc
    else pat2Last cs acc

/-- Pattern 2 of `findIMDbIdInPage`: `/imdb\.com\/.*\/(tt\d+)/i`. -/
def scanPat2 : List Char → Option String
  | [] => none
  | c :: cs =>
    match matchPrefixCI (String.toList "imdb.com/") (c :: cs) with
    | some rest =>
      match pat2Last rest none with
      | some s => some s
      | none => scanPat2 cs
    | none => scanPat2 cs

/-- Patterns 3 and 4 of `findIMDbIdInPage`:
`/"imdb_id":"(tt\d+)"/i` and its single-quoted twin, parameterized by the
quote character. -/
def scanPatQuoted (q : Char) : List Char → Option String
  | [] => none
  | c :: cs =>
    match matchPrefixCI ((q :: String.toList "imdb_id") ++ q :: ':' :: [q])
        (c :: cs) with
    | some rest =>
      match captureTTMin 1 rest with
      | some (s, rest2) =>
        if rest2.head? = some q then some s else scanPatQuoted q cs
      | none => scanPatQuoted q cs
    | none => scanPatQuoted q cs

/-- `MetadataResolver.findIMDbIdInPage()`: try the four patterns in order
against the page body (`document.body.innerHTML`); the first pattern that
matches anywhere wins and its capture is returned unvalidated. -/
def findIMDbIdInPage (body : String) : Option String :=
  match scanPat1 body.toList with
  | some s => some s
  | none =>
    match scanPat2 body.toList with
    | some s => some s
    | none =>
      match scanPatQuoted '"' body.toList with
      | some s => some s
      | none => scanPatQuoted (Char.ofNat 39) body.toList

/-- Guid pattern A of `PlexAPIClient.extractIMDbId`:
`/imdb:\/\/(tt\d+)/i`. -/
def scanImdbGuid : List Char → Option String
  | [] => none
  | c :: cs =>
    match matchPrefixCI (String.toList "imdb://") (c :: cs) with
    | some rest =>
      match captureTTMin 1 rest with
      | some (s, _) => some s
      | none => scanImdbGuid cs
    | none => scanImdbGuid cs

/-- Guid pattern B of `PlexAPIClient.extractIMDbId`: `/(tt\d{7,})/i` —
`tt` followed by SEVEN OR MORE digits (no upper bound). -/
def scanTTLong : List Char → Option String
  | [] => none
  | c :: cs =>
    match captureTTMin 7 (c :: cs) with
    | some (s, _) => some s
    | none => scanTTLong cs

/-- `PlexAPIClient.extractIMDbId(metadata)`: scan the guid id strings
(`metadata.Guid`, each `guid.id || guid`) and return the first match of
pattern A or pattern B, unvalidated. -/
def extractIMDbId : List String → Option String
  | [] => none
  | g :: gs =>
    match scanImdbGuid g.toList with
    | some s => some s
    | none =>
      match scanTTLong g.toList with
      | some s => some s
      | none => extractIMDbId gs

/-! ### OMDb client (api-client.js) and metadata resolver
(metadata-resolver.js)

The client's effectful collaborators are an environment: the loaded API
key, the cache lookup for the serialized query (a hit returns the cached
reply), and the `fetchWithRetry` + `response.json()` pipeline as a
function from the query to a parsed reply or a thrown transport error.
The write-back `cache.set` on success does not affect the returned value
and is not threaded here. -/

/-- The fields of an OMDb JSON reply that the client and resolver
inspect: `data.Response === 'True'`, `data.Error`, `data.imdbID`. -/
structure OmdbData where
  responseTrue : Bool
  errMsg : Option String
  imdbID : Option String
deriving DecidableEq, Repr

/-- Environment of `OMDBClient`. -/
structure OmdbEnv where
  apiKey : Option String
  cacheLookup : List (String × String) → Option OmdbData
  fetchJson : List (String × String) → Except String OmdbData

/-- `OMDBClient.request(params)`: throw `'API key not configured'` when no
key is loaded; return a cache hit; otherwise fetch, and throw
`data.Error || 'API request failed'` when the reply is not a success
(`Response !== 'True'`). -/
def OMDBClient.request (env : OmdbEnv) (params : List (String × String)) :
    Except String OmdbData :=
  match env.apiKey with
  | none => .error "API key not configured"
  | some key =>
    match env.cacheLookup (("apikey", key) :: params) with
    | some cached => .ok cached
    | none =>
      match env.fetchJson (("apikey", key) :: params) with
      | .error e => .error e
      | .ok data =>
        if data.responseTrue = false then
          .error (data.errMsg.getD "API request failed")
        else .ok data

/-- `OMDBClient.searchByTitle(title, year, type='movie')`: reject a falsy
title; include `y` only when the year is truthy and matches
`CONFIG.PATTERNS.YEAR`. -/
def OMDBClient.searchByTitle (env : OmdbEnv) (title year : String) :
    Except String OmdbData :=
  if title = "" then .error "Invalid title parameter"
  else
    OMDBClient.request env
      ([("t", title.trim), ("type", "movie")]
        ++ (if year ≠ "" ∧ yearPatternTest year = true then [("y", year)] else []))

/-- `OMDBClient.getByIMDbId(imdbId)`: fail fast on a malformed ID
(XSS guard), else request by `i`. -/
def OMDBClient.getByIMDbId (env : OmdbEnv) (imdbId : String) :
    Except String OmdbData :=
  if imdbIdPatternTest imdbId = false then
    .error ("Invalid IMDb ID format: " ++ imdbId)
  else OMDBClient.request env [("i", imdbId), ("plot", "short")]

/-- `getBestSearchTerms` output of the Plex client (originalTitle falls
back to title; year may be absent). -/
structure SearchTerms where
  title : String
  originalTitle : String
  year : Option String
  mediaType : Option String
deriving DecidableEq, Repr

/-- Result of `PlexAPIClient.getIMDbDataFromPage()` when it returns data:
`{imdbId, searchTerms}` (the raw metadata field is only logged). -/
structure PlexData where
  imdbId : Option String
  searchTerms : Option SearchTerms
deriving DecidableEq, Repr

/-- `{title, year}` extracted from the page DOM. -/
structure MovieInfo where
  title : String
  year : Option String
deriving DecidableEq, Repr

/-- Environment of `MetadataResolver.resolveIMDbId`: the page body
scanned by strategy 1, the Plex client's availability and (when consulted)
the value its `getIMDbDataFromPage()` resolves with, and the OMDb client
environment. -/
structure ResolveEnv where
  page : String
  plexAvailable : Bool
  plexData : Option PlexData
  omdb : OmdbEnv

/-- Strategy 3 of the resolver: `omdbClient.searchByTitle(movieInfo.title,
movieInfo.year || '')`; returns the reply's `imdbID` if present, else the
final `return null`.  A thrown search error propagates — the resolver has
no `try`/`catch`. -/
def resolveOmdbFallback (env : ResolveEnv) (mi : MovieInfo) :
    Except String (Option String) :=
  match OMDBClient.searchByTitle env.omdb mi.title (mi.year.getD "") with
  | .error e => .error e
  | .ok d => .ok d.imdbID

/-- `MetadataResolver.resolveIMDbId(movieInfo)`: strategy 1 (page scan),
then strategy 2 (Plex: direct ID, else an OMDb search with the Plex
original title, falling through on no hit), then strategy 3 (OMDb search
with the DOM title), else `null`.  Exceptions from either OMDb search
propagate to the caller. -/
def MetadataResolver.resolveIMDbId (env : ResolveEnv) (mi : MovieInfo) :
    Except String (Option String) :=
  match findIMDbIdInPage env.page with
  | some id => .ok (some id)
  | none =>
    if env.plexAvailable then
      match env.plexData with
      | none => resolveOmdbFallback env mi
      | some pd =>
        match pd.imdbId with
        | some id => .ok (some id)
        | none =>
          match pd.searchTerms with
          | none => resolveOmdbFallback env mi
          | some st =>
            match OMDBClient.searchByTitle env.omdb st.originalTitle
                (st.year.getD "") with
            | .error e => .error e
            | .ok d =>
              match d.imdbID with
              | some id => .ok (some id)
              | none => resolveOmdbFallback env mi
    else resolveOmdbFallback env mi

/-- OMDb environment whose provider replies `Response: 'False'`,
`Error: 'Movie not found!'` to every query. -/
def omdbEnvNotFound : OmdbEnv :=
  { apiKey := some "k", cacheLookup := fun _ => none,
    fetchJson := fun _ => .ok ⟨false, some "Movie not found!", none⟩ }

/-- C1 counterexample: with an empty page, Plex unavailable, and the OMDb
provider answering "Movie not found!" — i.e. all three strategies fail to
yield an identifier — `resolveIMDbId` does NOT return `null`: the error
thrown by `OMDBClient.request` (`Response !== 'True'`) propagates to the
caller. -/
theorem resolver_throws_when_all_fail :
    MetadataResolver.resolveIMDbId
        { page := "", plexAvailable := false, plexData := none,
          omdb := omdbEnvNotFound }
        ⟨"Some Unknown Movie", none⟩
      = .error "Movie not found!" := rfl

/-- C1 amended: when the page scan finds nothing, the Plex path is
unavailable, and the OMDb title search completes WITHOUT throwing but
carries no `imdbID`, the resolver returns `null` as a normal outcome. -/
theorem resolver_returns_none_when_search_empty (env : ResolveEnv)
    (mi : MovieInfo) (d : OmdbData)
    (hpage : findIMDbIdInPage env.page = none)
    (hplex : env.plexAvailable = false)
    (hsearch : OMDBClient.searchByTitle env.omdb mi.title (mi.year.getD "")
      = .ok d)
    (hid : d.imdbID = none) :
    MetadataResolver.resolveIMDbId env mi = .ok none := by
  unfold MetadataResolver.resolveIMDbId
  rw [hpage, hplex]
  rw [if_neg (by simp)]
  unfold resolveOmdbFallback
  rw [hsearch]
  show Except.ok d.imdbID = Except.ok none
  rw [hid]

/-- OMDb environment whose provider replies success without an `imdbID`. -/
def omdbEnvEmptyHit : OmdbEnv :=
  { apiKey := some "k", cacheLookup := fun _ => none,
    fetchJson := fun _ => .ok ⟨true, none, none⟩ }

theorem resolver_returns_none_when_search_empty_witness :
    findIMDbIdInPage "" = none
    ∧ OMDBClient.searchByTitle omdbEnvEmptyHit "Inception" "2010"
        = .ok ⟨true, none, none⟩
    ∧ MetadataResolver.resolveIMDbId
        { page := "", plexAvailable := false, plexData := none,
          omdb := omdbEnvEmptyHit }
        ⟨"Inception", some "2010"⟩ = .ok none :=
  ⟨rfl, rfl,
    resolver_returns_none_when_search_empty
      { page := "", plexAvailable := false, plexData := none,
        omdb := omdbEnvEmptyHit }
      ⟨"Inception", some "2010"⟩ ⟨true, none, none⟩ rfl rfl rfl rfl⟩

/-- C3 counterexample: the page scan accepts `tt` followed by ANY number
of digits (`tt\d+`), so a page containing `imdb.com/title/tt123` makes
the resolver return `"tt123"`, which fails `^tt\d{7,8}$`; likewise the
Plex guid extraction accepts `imdb://tt123`.  Producing steps do not all
reject malformed identifiers. -/
theorem resolver_id_format_counterexample :
    findIMDbIdInPage "imdb.com/title/tt123" = some "tt123"
    ∧ imdbIdPatternTest "tt123" = false
    ∧ extractIMDbId ["com.plexapp.agents.imdb://tt123"] = some "tt123"
    ∧ imdbIdPatternTest "tt123456789" = false
    ∧ extractIMDbId ["guid tt123456789"] = some "tt123456789"
    ∧ MetadataResolver.resolveIMDbId
        { page := "imdb.com/title/tt123", plexAvailable := false,
          plexData := none, omdb := omdbEnvNotFound }
        ⟨"m", none⟩ = .ok (some "tt123") :=
  ⟨rfl, rfl, rfl, rfl, rfl, rfl⟩

/-- C3 amended: the strict `^tt\d{7,8}$` validation guards
`OMDBClient.getByIMDbId` (and link construction in the UI layer), which
rejects any malformed ID before issuing a request; but the resolver's
page scan and the Plex guid extraction accept looser `tt\d+` /
`tt\d{7,}` shapes, so identifiers returned by the resolver need not match
the fixed format. -/
theorem getByIMDbId_guard (env : OmdbEnv) (id : String) :
    (imdbIdPatternTest id = false →
      OMDBClient.getByIMDbId env id = .error ("Invalid IMDb ID format: " ++ id))
    ∧ (imdbIdPatternTest id = true →
      OMDBClient.getByIMDbId env id
        = OMDBClient.request env [("i", id), ("plot", "short")]) := by
  constructor
  · intro h
    unfold OMDBClient.getByIMDbId
    rw [h]
    rfl
  · intro h
    unfold OMDBClient.getByIMDbId
    rw [h]
    rfl

theorem getByIMDbId_guard_witness :
    imdbIdPatternTest "tt123" = false
    ∧ OMDBClient.getByIMDbId omdbEnvNotFound "tt123"
        = .error ("Invalid IMDb ID format: " ++ "tt123")
    ∧ imdbIdPatternTest "tt1375666" = true
    ∧ OMDBClient.getByIMDbId omdbEnvNotFound "tt1375666"
        = OMDBClient.request omdbEnvNotFound [("i", "tt1375666"), ("plot", "short")] :=
  ⟨rfl, (getByIMDbId_guard omdbEnvNotFound "tt123").1 rfl, rfl,
    (getByIMDbId_guard omdbEnvNotFound "tt1375666").2 rfl⟩
